import Mathlib

/-!
# Verification of the PulseView `DecoderStack` decode pipeline

Shallow embedding of `src/pv/data/decoderstack.cpp` (class
`pv::data::DecoderStack`).  Sample indices (`int64_t` in the source, always
non-negative there) are modelled as `Nat`; the `std::map` members `rows_` and
`class_rows_` are modelled as association lists; the decode-engine call
`srd_session_send` is abstracted as an oracle `feed : Nat → Nat → Bool`
(success flag per chunk), together with an oracle `ann_out` giving the
identities of the events the engine emits (via callback) during that call.
The source's `Annotation` type is modelled under the shorter name `Ann`.
-/

set_option autoImplicit false

namespace PulseView

/-- Association-list lookup, modelling `std::map::find`. -/
def alookup {κ β : Type} [DecidableEq κ] : List (κ × β) → κ → Option β
  | [], _ => none
  | p :: ps, k => if p.1 = k then some p.2 else alookup ps k

/-- Association-list insert-or-assign, modelling `std::map::operator[]=`. -/
def aupdate {κ β : Type} [DecidableEq κ] : List (κ × β) → κ → β → List (κ × β)
  | [], k, v => [(k, v)]
  | p :: ps, k, v => if p.1 = k then (k, v) :: ps else p :: aupdate ps k v

/-- A decoded event (source type `pv::data::decode::Annotation`, built from
`srd_proto_data`): start/end sample and the annotation class id returned by
`format()`. -/
structure Ann where
  start_sample : Nat
  end_sample : Nat
  fmt : Nat
deriving DecidableEq, Repr

/-- `pv::data::decode::Row`: identity is the decoder plus an optional
annotation-row schema (`Row(decc)` has no schema; `Row(decc, ann_row)` has
one).  Decoder and schema identities are modelled as `Nat` (the source keys
rows by the raw pointers). -/
structure Row where
  decoder : Nat
  row : Option Nat
deriving DecidableEq, Repr

/-- Modelled from the spec: `pv::data::decode::RowData` (its source file is
not part of this repository snapshot) — an append-only, sample-range-indexed
sequence of decoded events. -/
structure RowData where
  anns_ : List Ann
deriving DecidableEq, Repr

/-- Modelled from the spec: a fresh, empty per-row store (`RowData()`). -/
def RowData.empty : RowData := ⟨[]⟩

/-- Modelled from the spec: append one event to the row's store
(`RowData::push_annotation` in the source tree). -/
def RowData.push_ann (rd : RowData) (a : Ann) : RowData :=
  ⟨rd.anns_ ++ [a]⟩

/-- Modelled from the spec: range query of a row's store — appends to `dest`
all stored events overlapping the queried sample range, in stored order
(`RowData::get_annotation_subset` in the source tree). -/
def RowData.subset_query (rd : RowData) (dest : List Ann)
    (start_sample end_sample : Nat) : List Ann :=
  dest ++ rd.anns_.filter
    (fun a => decide (start_sample < a.end_sample) &&
              decide (a.start_sample ≤ end_sample))

/-- `pv::Session` capture states (defined in `session.hpp`; only `Stopped`
is distinguished by the code under verification). -/
inductive CaptureState where
  | Stopped
  | AwaitingTrigger
  | Running
deriving DecidableEq, Repr

/-- `DecoderStack::DecodeChunkLength` (decoderstack.cpp line 56). -/
def DecodeChunkLength : Nat := 10 * 1024 * 1024

/-- `DecoderStack::DecodeNotifyPeriod` (decoderstack.cpp line 57). -/
def DecodeNotifyPeriod : Nat := 1024

/-- Samples per chunk: `DecodeChunkLength / segment_->unit_size()`
(decoderstack.cpp lines 311-312). -/
def chunk_sample_count (unit_size : Nat) : Nat :=
  DecodeChunkLength / unit_size

/-- The fields of the `DecoderStack` read by `wait_for_data` after the wait
loop exits: a snapshot of the shared state at that instant. -/
structure WaitObs where
  interrupt_ : Bool
  frame_complete_ : Bool
  samples_decoded_ : Nat
  sample_count_ : Nat
  capture_state : CaptureState
deriving DecidableEq, Repr

/-- `DecoderStack::wait_for_data` (decoderstack.cpp lines 285-305), return
value only: the blocking loop merely waits until the snapshot allows a
decision, after which `boost::make_optional(cond, sample_count_)` is
returned.  The optional is engaged exactly when `cond` holds. -/
def wait_for_data (s : WaitObs) : Option Nat :=
  if s.interrupt_ = false
      ∧ (s.samples_decoded_ < s.sample_count_ ∨ s.frame_complete_ = false)
      ∧ ¬(s.sample_count_ ≤ s.samples_decoded_
            ∧ s.capture_state = CaptureState.Stopped)
  then some s.sample_count_
  else none

/-- The error string set by `decode_data` on a failed engine call
(`tr("Decoder reported an error")`). -/
def decoderReportedError : String := "Decoder reported an error"

/-- The error string set by `begin_decode` when a decoder lacks required
channels. -/
def requiredChannelsMsg : String :=
  "One or more required channels have not been specified"

/-- The mutable state of the pipeline that `decode_data` touches:
`samples_decoded_`, `error_message_`, and (abstractly) the identities of the
events the engine has emitted so far into the row stores via the annotation
callback during `srd_session_send`. -/
structure DecodeState where
  samples_decoded : Nat
  error_message : String
  anns : List Nat
deriving DecidableEq, Repr

/-- One `srd_session_send` call: the absolute start sample and the end
sample of the chunk. -/
structure FeedCall where
  start : Nat
  stop : Nat
deriving DecidableEq, Repr

/-- Result of a `decode_data` run: the final state, the list of engine feed
calls made (in order), and the successive values assigned to
`samples_decoded_` (in order). -/
structure RunResult where
  state : DecodeState
  calls : List FeedCall
  updates : List Nat
deriving DecidableEq, Repr

/-- The `for` loop of `DecoderStack::decode_data` (decoderstack.cpp lines
314-333).  `fuel` is a structural-recursion bound: since `i` advances by at
least one sample per iteration whenever `chunk_sc > 0`, any
`fuel ≥ sample_count - i` makes the model agree with the loop (established
by the `sample_count ≤ i + fuel` hypotheses of the lemmas below).  Each
iteration: if not interrupted and `i < sample_count`, read the chunk
`[i, min (i + chunk_sc) sample_count)`, send it to the engine (which emits
the events `ann_out i chunk_end` via callback during the call); on failure
record the error and break without touching `samples_decoded`; on success
assign `samples_decoded := chunk_end` and continue from `chunk_end`. -/
def decode_data_go (feed : Nat → Nat → Bool) (ann_out : Nat → Nat → List Nat)
    (chunk_sc sample_count : Nat) (interrupt : Bool) :
    Nat → Nat → DecodeState → RunResult
  | 0, _, st => ⟨st, [], []⟩
  | fuel + 1, i, st =>
    if interrupt = false ∧ i < sample_count then
      let chunk_end := min (i + chunk_sc) sample_count
      let st1 : DecodeState := { st with anns := st.anns ++ ann_out i chunk_end }
      if feed i chunk_end then
        let r := decode_data_go feed ann_out chunk_sc sample_count interrupt
          fuel chunk_end { st1 with samples_decoded := chunk_end }
        ⟨r.state, ⟨i, chunk_end⟩ :: r.calls, chunk_end :: r.updates⟩
      else
        ⟨{ st1 with error_message := decoderReportedError },
          [⟨i, chunk_end⟩], []⟩
    else ⟨st, [], []⟩

/-- `DecoderStack::decode_data` (decoderstack.cpp lines 307-334): chunk size
in samples is `DecodeChunkLength / unit_size`; the loop starts at
`abs_start_samplenum` and runs to `sample_count`.  The fuel
`sample_count` suffices for every start position (each iteration advances
`i` by at least one while `i < sample_count`). -/
def decode_data (feed : Nat → Nat → Bool) (ann_out : Nat → Nat → List Nat)
    (unit_size : Nat) (interrupt : Bool)
    (abs_start_samplenum sample_count : Nat) (st : DecodeState) : RunResult :=
  decode_data_go feed ann_out (chunk_sample_count unit_size) sample_count
    interrupt sample_count abs_start_samplenum st

/-- Events observable from `decode_proc`: engine feed calls, the
`new_annotations()` signal, and `srd_session_destroy`. -/
inductive PEvent where
  | feed_call (start stop : Nat)
  | new_anns
  | session_destroy
deriving DecidableEq, Repr

/-- The `do { decode_data(...); abs_start = *sample_count; } while
(error_message_.isEmpty() && (sample_count = wait_for_data()))` loop of
`DecoderStack::decode_proc` (decoderstack.cpp lines 384-388).  Each entry of
`envs` is the shared-state snapshot observed by one `wait_for_data` call
(covering interrupts, frame completion, newly arrived samples and capture
state); an exhausted `envs` models a final disengaged `wait_for_data`. -/
def decode_loop (feed : Nat → Nat → Bool) (ann_out : Nat → Nat → List Nat)
    (unit_size : Nat) :
    List WaitObs → Nat → Nat → DecodeState → DecodeState × List PEvent
  | envs, abs_start, sc, st =>
    let r := decode_data feed ann_out unit_size false abs_start sc st
    let evs := r.calls.map (fun fc => PEvent.feed_call fc.start fc.stop)
    if r.state.error_message = "" then
      match envs with
      | [] => (r.state, evs)
      | e :: rest =>
        match wait_for_data e with
        | none => (r.state, evs)
        | some n =>
          let p := decode_loop feed ann_out unit_size rest sc n r.state
          (p.1, evs ++ p.2)
    else (r.state, evs)

/-- Tail of `DecoderStack::decode_proc` (decoderstack.cpp lines 384-395):
after the feed/wait loop exits — by error, interrupt or completion — the
code unconditionally runs `new_annotations()` and then
`srd_session_destroy(session)`. -/
def decode_proc (feed : Nat → Nat → Bool) (ann_out : Nat → Nat → List Nat)
    (unit_size : Nat) (envs : List WaitObs) (sc0 : Nat) (st : DecodeState) :
    DecodeState × List PEvent :=
  let p := decode_loop feed ann_out unit_size envs 0 sc0 st
  (p.1, p.2 ++ [PEvent.new_anns, PEvent.session_destroy])

/-- One annotation-row schema declared by a decoder
(`srd_decoder_annotation_row`): its identity and its declared class ids. -/
structure AnnRowSchema where
  rid : Nat
  ann_classes : List Nat
deriving DecidableEq, Repr

/-- `pv::data::decode::Decoder` as seen by `DecoderStack`: identity of the
wrapped `srd_decoder`, the `have_required_channels()` flag, the declared
annotation-row schemas (`decc->annotation_rows`; `[]` models a null list),
and the visibility flag. -/
structure Decoder where
  did : Nat
  have_required_channels : Bool
  annotation_rows : List AnnRowSchema
  shown : Bool
deriving DecidableEq, Repr

/-- A `pv::data::LogicSegment` as consumed here: unit size in bytes, sample
count, start time and sample rate (the floating-point rate is modelled as an
integer; no claim depends on fractional rates). -/
structure Segment where
  unit_size_ : Nat
  sample_count_ : Nat
  start_time_ : Int
  samplerate_ : Int
deriving DecidableEq, Repr

/-- The members of `pv::data::DecoderStack` the claims touch.
`thread_running` models `decode_thread_.joinable()`. -/
structure StackState where
  stack_ : List Decoder
  start_time_ : Int
  samplerate_ : Int
  sample_count_ : Nat
  frame_complete_ : Bool
  samples_decoded_ : Nat
  annotation_count_ : Nat
  error_message_ : String
  rows_ : List (Row × RowData)
  class_rows_ : List ((Nat × Nat) × Row)
  interrupt_ : Bool
  thread_running : Bool
  segment_ : Option Segment
deriving DecidableEq, Repr

/-- `DecoderStack::clear` (decoderstack.cpp lines 184-193). -/
def DecoderStack.clear (s : StackState) : StackState :=
  { s with sample_count_ := 0, annotation_count_ := 0,
           frame_complete_ := false, samples_decoded_ := 0,
           error_message_ := "", rows_ := [], class_rows_ := [] }

/-- The "Add classes" body of `begin_decode` for one decoder
(decoderstack.cpp lines 214-240): a decoder without a row list gets a row
keyed by the decoder alone; each declared row gets an empty store and a
(decoder, class) → row entry per declared class. -/
def addRowsFor (s : StackState) (d : Decoder) : StackState :=
  let s :=
    if d.annotation_rows = [] then
      { s with rows_ := aupdate s.rows_ ⟨d.did, none⟩ RowData.empty }
    else s
  d.annotation_rows.foldl (fun s ar =>
    let row : Row := ⟨d.did, some ar.rid⟩
    let s := { s with rows_ := aupdate s.rows_ row RowData.empty }
    ar.ann_classes.foldl (fun s cls =>
      { s with class_rows_ := aupdate s.class_rows_ (d.did, cls) row }) s) s

/-- `DecoderStack::begin_decode` (decoderstack.cpp lines 195-272).  The
scan of the stack for the first channel with logic data is abstracted into
`data_segments`: `none` models `data == nullptr` (return with no error),
`some segs` the located logic data's segment deque.  The initial
`decode_thread_.join()` is modelled by dropping `thread_running`; spawning
the decode thread at the end sets it again. -/
def DecoderStack.begin_decode (data_segments : Option (List Segment))
    (s : StackState) : StackState :=
  let s := { s with thread_running := false }
  let s := DecoderStack.clear s
  if s.stack_.any (fun d => d.have_required_channels = false) then
    { s with error_message_ := requiredChannelsMsg }
  else
    let s := s.stack_.foldl addRowsFor s
    match data_segments with
    | none => s
    | some [] => s
    | some (seg :: _) =>
      { s with segment_ := some seg,
               start_time_ := seg.start_time_,
               samplerate_ := if seg.samplerate_ = 0 then 1 else seg.samplerate_,
               interrupt_ := false,
               thread_running := true }

/-- `DecoderStack::inc_annotation_count` (decoderstack.cpp lines 160-163):
post-increment, returning the old value. -/
def DecoderStack.inc_ann_count (s : StackState) : Nat × StackState :=
  (s.annotation_count_, { s with annotation_count_ := s.annotation_count_ + 1 })

/-- Result of one `annotation_callback` invocation: the updated stack state,
whether `new_annotations()` was emitted, and whether the event was dropped
after a failed row resolution (the `qDebug` + early-return branch). -/
structure AnnCbResult where
  state : StackState
  notified : Bool
  dropped : Bool
deriving DecidableEq, Repr

/-- `DecoderStack::annotation_callback` (decoderstack.cpp lines 397-440),
release semantics (`assert` compiled out; the defensive `qDebug` +
`return` branch handles an unresolvable row).  `decc` is the identity of
`pdata->pdo->di->decoder`.  Resolution: look up `(decc, a.fmt)` in
`class_rows_`; on a hit resolve that mapped row in `rows_`, on a miss
resolve `Row(decc)` in `rows_`.  If the resolved row is absent, drop the
single event and return; otherwise append it to exactly that row's store,
post-increment the global counter, and notify every `DecodeNotifyPeriod`
events. -/
def DecoderStack.ann_callback (decc : Nat) (a : Ann) (s : StackState) :
    AnnCbResult :=
  let row_key : Row :=
    match alookup s.class_rows_ (decc, a.fmt) with
    | some r => r
    | none => ⟨decc, none⟩
  match alookup s.rows_ row_key with
  | none => ⟨s, false, true⟩
  | some rd =>
    let s := { s with rows_ := aupdate s.rows_ row_key (RowData.push_ann rd a) }
    let p := DecoderStack.inc_ann_count s
    if p.1 % DecodeNotifyPeriod = 0 then ⟨p.2, true, false⟩
    else ⟨p.2, false, false⟩

/-- `DecoderStack::remove` (decoderstack.cpp lines 100-112): the two
`assert`s bounds-check the index; an invalid index is a failure (`none`)
that leaves the stack untouched, a valid one erases exactly the element at
that position (the iterator is advanced `index` times and erased). -/
def DecoderStack.remove {α : Type} (index : Int) (stack : List α) :
    Option (List α) :=
  if index < 0 ∨ (stack.length : Int) ≤ index then none
  else some (stack.eraseIdx index.toNat)

/-- `DecoderStack::get_annotation_subset` (decoderstack.cpp lines 165-176):
find the row in `rows_`; only on a hit delegate to the row store's range
query (which appends to `dest`); on a miss `dest` is left untouched and the
call returns normally. -/
def DecoderStack.get_ann_subset (s : StackState) (dest : List Ann)
    (row : Row) (start_sample end_sample : Nat) : List Ann :=
  match alookup s.rows_ row with
  | some rd => RowData.subset_query rd dest start_sample end_sample
  | none => dest

/-- A concrete stack state (one decoder, no rows yet) used to instantiate
theorems on explicit inputs. -/
def stateA : StackState :=
  { stack_ := [⟨7, true, [⟨3, [0, 1]⟩], true⟩],
    start_time_ := 0, samplerate_ := 0, sample_count_ := 0,
    frame_complete_ := false, samples_decoded_ := 0, annotation_count_ := 0,
    error_message_ := "", rows_ := [], class_rows_ := [],
    interrupt_ := false, thread_running := false, segment_ := none }

/-- A concrete stack state whose second decoder lacks its required
channels. -/
def stateB : StackState :=
  { stateA with stack_ := [⟨7, true, [], true⟩, ⟨8, false, [], true⟩],
                samples_decoded_ := 42, error_message_ := "old",
                segment_ := some ⟨1, 5, 0, 0⟩ }

/-- A concrete stack state with one built row (decoder 7, schema 3) whose
class 0 is mapped in the class map. -/
def stateC : StackState :=
  { stateA with rows_ := [(⟨7, some 3⟩, RowData.empty)],
                class_rows_ := [((7, 0), ⟨7, some 3⟩)] }

/-- A concrete feed oracle that fails from absolute sample 10 onwards. -/
def feedUpTo10 (start : Nat) (_stop : Nat) : Bool :=
  decide (start < 10)

/-- A feed oracle that always succeeds. -/
def feedOk (_start _stop : Nat) : Bool := true

/-- An event oracle emitting one event identity per chunk. -/
def annOne (start : Nat) (_stop : Nat) : List Nat := [start]

end PulseView

namespace PulseView

theorem alookup_aupdate_self {κ β : Type} [DecidableEq κ]
    (l : List (κ × β)) (k : κ) (v : β) :
    alookup (aupdate l k v) k = some v := by
  induction l with
  | nil => simp [aupdate, alookup]
  | cons p ps ih =>
    by_cases h : p.1 = k <;> simp [aupdate, alookup, h, ih]

theorem alookup_aupdate_ne {κ β : Type} [DecidableEq κ]
    (l : List (κ × β)) (k k2 : κ) (v : β) (h : k2 ≠ k) :
    alookup (aupdate l k v) k2 = alookup l k2 := by
  induction l with
  | nil => simp [aupdate, alookup, Ne.symm h]
  | cons p ps ih =>
    by_cases hp : p.1 = k
    · subst hp
      simp [aupdate, alookup, Ne.symm h, h.symm]
    · simp only [aupdate, if_neg hp, alookup]
      by_cases hq : p.1 = k2 <;> simp [hq, ih]

theorem mem_aupdate {κ β : Type} [DecidableEq κ]
    {l : List (κ × β)} {k : κ} {v : β} {p : κ × β}
    (h : p ∈ aupdate l k v) : p = (k, v) ∨ p ∈ l := by
  induction l with
  | nil => simpa [aupdate] using h
  | cons q qs ih =>
    by_cases hq : q.1 = k
    · simp only [aupdate, if_pos hq, List.mem_cons] at h
      rcases h with h | h
      · exact Or.inl h
      · exact Or.inr (List.mem_cons_of_mem _ h)
    · simp only [aupdate, if_neg hq, List.mem_cons] at h
      rcases h with h | h
      · exact Or.inr (by simp [h])
      · rcases ih h with h2 | h2
        · exact Or.inl h2
        · exact Or.inr (List.mem_cons_of_mem _ h2)

/-- C1: `wait_for_data` returns an engaged value (the current sample count
as the next feed target) if and only if no interrupt was requested, there is
more work to do (`samples_decoded < sample_count` or the frame is not
complete), and it is not the case that all available samples are decoded
while the capture state is `Stopped`; otherwise it returns the disengaged
"no more work" sentinel. -/
theorem wait_for_data_engaged_iff (s : WaitObs) :
    ((wait_for_data s).isSome ↔
      (s.interrupt_ = false
        ∧ (s.samples_decoded_ < s.sample_count_ ∨ s.frame_complete_ = false)
        ∧ ¬(s.sample_count_ ≤ s.samples_decoded_
              ∧ s.capture_state = CaptureState.Stopped)))
    ∧ (wait_for_data s = none ∨ wait_for_data s = some s.sample_count_) := by
  constructor
  · unfold wait_for_data
    split <;> simp_all
  · unfold wait_for_data
    split <;> simp

/-- C9: `remove(index)` is bounds-checked: a negative index or one not less
than the stack size fails (out-of-range) leaving the stack unchanged; a
valid index erases exactly the element at that position, preserving the
order of the remaining elements. -/
theorem remove_bounds_checked {α : Type} (index : Int) (stack : List α) :
    ((index < 0 ∨ (stack.length : Int) ≤ index) →
        DecoderStack.remove index stack = none)
    ∧ (0 ≤ index → index < (stack.length : Int) →
        DecoderStack.remove index stack
          = some (stack.take index.toNat ++ stack.drop (index.toNat + 1))) := by
  constructor
  · intro h
    simp [DecoderStack.remove, h]
  · intro h1 h2
    have hno : ¬(index < 0 ∨ (stack.length : Int) ≤ index) := by omega
    simp [DecoderStack.remove, hno, List.eraseIdx_eq_take_drop_succ]

/-- Witness for C9 at explicit inputs: index 5 is rejected on a 3-element
stack; index 1 removes exactly the middle element. -/
theorem remove_bounds_checked_witness :
    DecoderStack.remove 5 [10, 20, 30] = none
    ∧ DecoderStack.remove 1 [10, 20, 30] = some [10, 30] := by
  refine ⟨(remove_bounds_checked 5 [10, 20, 30]).1 (by decide), ?_⟩
  have h := (remove_bounds_checked 1 [(10 : Nat), 20, 30]).2 (by decide) (by decide)
  simpa using h

/-- C10: for a row absent from the row index, `get_annotation_subset`
leaves the destination vector unchanged and returns normally (no error
state exists in its signature); it never fails for an unknown row. -/
theorem get_ann_subset_unknown_row (s : StackState) (dest : List Ann)
    (row : Row) (start_sample end_sample : Nat)
    (h : alookup s.rows_ row = none) :
    DecoderStack.get_ann_subset s dest row start_sample end_sample = dest := by
  simp [DecoderStack.get_ann_subset, h]

/-- Witness for C10: querying a row that was never created returns the
destination list unchanged. -/
theorem get_ann_subset_unknown_row_witness :
    DecoderStack.get_ann_subset stateA [⟨0, 1, 0⟩] ⟨9, none⟩ 0 100 = [⟨0, 1, 0⟩] :=
  get_ann_subset_unknown_row stateA [⟨0, 1, 0⟩] ⟨9, none⟩ 0 100 (by decide)

theorem getLast?_cons_getD (l : List Nat) :
    ∀ a d : Nat, ((a :: l).getLast?).getD d = (l.getLast?).getD a := by
  induction l with
  | nil => intro a d; simp
  | cons x xs ih =>
    intro a d
    rw [List.getLast?_cons_cons, ih x d, ih x a]

/-- The final `samples_decoded` of a `decode_data` run is the last value
assigned to it, or the initial value if no assignment happened. -/
theorem go_sd_eq_updates (feed : Nat → Nat → Bool) (ann_out : Nat → Nat → List Nat)
    (c sc : Nat) (intr : Bool) :
    ∀ fuel i st,
      (decode_data_go feed ann_out c sc intr fuel i st).state.samples_decoded
        = (((decode_data_go feed ann_out c sc intr fuel i st).updates.getLast?).getD
            st.samples_decoded) := by
  intro fuel
  induction fuel with
  | zero => intro i st; simp [decode_data_go]
  | succ fuel ih =>
    intro i st
    by_cases hcond : intr = false ∧ i < sc
    · rw [decode_data_go, if_pos hcond]
      by_cases hf : feed i (min (i + c) sc) = true
      · simp only [hf, if_pos]
        rw [ih]
        exact (getLast?_cons_getD _ _ _).symm
      · simp only [hf]
        simp
    · rw [decode_data_go, if_neg hcond]
      simp

/-- The assignments to `samples_decoded` are exactly the end samples of the
successful feed calls, in order. -/
theorem go_updates_eq_ok_calls (feed : Nat → Nat → Bool)
    (ann_out : Nat → Nat → List Nat) (c sc : Nat) (intr : Bool) :
    ∀ fuel i st,
      (decode_data_go feed ann_out c sc intr fuel i st).updates
        = (((decode_data_go feed ann_out c sc intr fuel i st).calls.filter
            (fun fc => feed fc.start fc.stop)).map (fun fc => fc.stop)) := by
  intro fuel
  induction fuel with
  | zero => intro i st; simp [decode_data_go]
  | succ fuel ih =>
    intro i st
    by_cases hcond : intr = false ∧ i < sc
    · rw [decode_data_go, if_pos hcond]
      by_cases hf : feed i (min (i + c) sc) = true
      · simp only [hf, if_pos]
        simp [List.filter_cons, hf, ih]
      · simp only [hf]
        simp [List.filter_cons, hf]
    · rw [decode_data_go, if_neg hcond]
      simp

/-- `decode_data` only ever appends to the decoded-event stores: the events
present before the run are a prefix of those present after it. -/
theorem go_anns_retained (feed : Nat → Nat → Bool)
    (ann_out : Nat → Nat → List Nat) (c sc : Nat) (intr : Bool) :
    ∀ fuel i st, ∃ t,
      (decode_data_go feed ann_out c sc intr fuel i st).state.anns
        = st.anns ++ t := by
  intro fuel
  induction fuel with
  | zero => intro i st; exact ⟨[], by simp [decode_data_go]⟩
  | succ fuel ih =>
    intro i st
    by_cases hcond : intr = false ∧ i < sc
    · rw [decode_data_go, if_pos hcond]
      by_cases hf : feed i (min (i + c) sc) = true
      · simp only [hf, if_pos]
        obtain ⟨t, ht⟩ := ih (min (i + c) sc)
          { st with anns := st.anns ++ ann_out i (min (i + c) sc),
                    samples_decoded := min (i + c) sc }
        exact ⟨ann_out i (min (i + c) sc) ++ t, by simp [ht]⟩
      · simp only [hf]
        exact ⟨ann_out i (min (i + c) sc), by simp⟩
    · rw [decode_data_go, if_neg hcond]
      exact ⟨[], by simp⟩

/-- Error dichotomy for `decode_data`: either the error message is untouched
and every feed call succeeded, or the error is the decoder-error message and
the calls are a run of successes followed by exactly one failure. -/
theorem go_error_dichotomy (feed : Nat → Nat → Bool)
    (ann_out : Nat → Nat → List Nat) (c sc : Nat) (intr : Bool) :
    ∀ fuel i st,
      ((decode_data_go feed ann_out c sc intr fuel i st).state.error_message
          = st.error_message
        ∧ ∀ fc ∈ (decode_data_go feed ann_out c sc intr fuel i st).calls,
            feed fc.start fc.stop = true)
      ∨ ((decode_data_go feed ann_out c sc intr fuel i st).state.error_message
          = decoderReportedError
        ∧ ∃ L lastc,
            (decode_data_go feed ann_out c sc intr fuel i st).calls = L ++ [lastc]
            ∧ feed lastc.start lastc.stop = false
            ∧ ∀ fc ∈ L, feed fc.start fc.stop = true) := by
  intro fuel
  induction fuel with
  | zero => intro i st; left; simp [decode_data_go]
  | succ fuel ih =>
    intro i st
    by_cases hcond : intr = false ∧ i < sc
    · rw [decode_data_go, if_pos hcond]
      by_cases hf : feed i (min (i + c) sc) = true
      · simp only [hf, if_pos]
        rcases ih (min (i + c) sc)
            { st with anns := st.anns ++ ann_out i (min (i + c) sc),
                      samples_decoded := min (i + c) sc } with ⟨he, hall⟩ | ⟨he, L, lastc, hc2, hl, hL⟩
        · left
          refine ⟨by simpa using he, ?_⟩
          intro fc hfc
          rcases List.mem_cons.mp hfc with h | h
          · subst h; exact hf
          · exact hall fc h
        · right
          refine ⟨by simpa using he, ⟨i, min (i + c) sc⟩ :: L, lastc, by simp [hc2], hl, ?_⟩
          intro fc hfc
          rcases List.mem_cons.mp hfc with h | h
          · subst h; exact hf
          · exact hL fc h
      · simp only [hf]
        right
        refine ⟨by simp, [], ⟨i, min (i + c) sc⟩, by simp, ?_, by simp⟩
        simpa using hf
    · rw [decode_data_go, if_neg hcond]
      left; simp

/-- Every assignment to `samples_decoded` during `decode_data` is at least
the previous value, provided the run starts at or beyond the current
watermark (as `decode_proc` always arranges). -/
theorem go_sd_chain (feed : Nat → Nat → Bool) (ann_out : Nat → Nat → List Nat)
    (c sc : Nat) (intr : Bool) :
    ∀ fuel i st, st.samples_decoded ≤ i →
      List.Chain (· ≤ ·) st.samples_decoded
        (decode_data_go feed ann_out c sc intr fuel i st).updates := by
  intro fuel
  induction fuel with
  | zero => intro i st _; simp [decode_data_go, List.Chain.nil]
  | succ fuel ih =>
    intro i st hle
    by_cases hcond : intr = false ∧ i < sc
    · rw [decode_data_go, if_pos hcond]
      by_cases hf : feed i (min (i + c) sc) = true
      · simp only [hf, if_pos]
        have hce : i ≤ min (i + c) sc :=
          le_min (Nat.le_add_right i c) (le_of_lt hcond.2)
        refine List.chain_cons.mpr ⟨le_trans hle hce, ?_⟩
        exact ih (min (i + c) sc)
          { st with anns := st.anns ++ ann_out i (min (i + c) sc),
                    samples_decoded := min (i + c) sc } (by simp)
      · simp only [hf]
        simp [List.Chain.nil]
    · rw [decode_data_go, if_neg hcond]
      simp [List.Chain.nil]

/-- C4: within a single decode run, `samples_decoded_` is monotonically
non-decreasing across every update performed by `decode_data`: each
assignment sets it to a chunk end that is at least its previous value
(`decode_proc` always calls `decode_data` with the current watermark at or
below the start sample, which is the stated hypothesis). -/
theorem decode_data_sd_monotone (feed : Nat → Nat → Bool)
    (ann_out : Nat → Nat → List Nat) (unit_size : Nat) (interrupt : Bool)
    (abs_start sample_count : Nat) (st : DecodeState)
    (h : st.samples_decoded ≤ abs_start) :
    List.Chain (· ≤ ·) st.samples_decoded
      (decode_data feed ann_out unit_size interrupt
        abs_start sample_count st).updates :=
  go_sd_chain feed ann_out (chunk_sample_count unit_size) sample_count
    interrupt sample_count abs_start st h

/-- Witness for C4: a concrete 25-sample run in 10-sample chunks. -/
theorem decode_data_sd_monotone_witness :
    (⟨0, "", []⟩ : DecodeState).samples_decoded ≤ 0
    ∧ List.Chain (· ≤ ·) (⟨0, "", []⟩ : DecodeState).samples_decoded
        (decode_data feedOk annOne 1048576 false 0 25 ⟨0, "", []⟩).updates :=
  ⟨by decide,
   decode_data_sd_monotone feedOk annOne 1048576 false 0 25 ⟨0, "", []⟩
     (by decide)⟩

/-- C2: if an engine feed call of a `decode_data` run fails, the run records
the (non-empty) decoder-error message, makes no further feed calls (the
failing call is the last one and every earlier call succeeded), leaves
`samples_decoded` at the boundary reached by the last successful chunk, and
retains every decoded event produced before the run plus those already
emitted during it. -/
theorem decode_data_error_stops (feed : Nat → Nat → Bool)
    (ann_out : Nat → Nat → List Nat) (unit_size : Nat) (interrupt : Bool)
    (abs_start sample_count : Nat) (st : DecodeState) (fc0 : FeedCall)
    (hmem : fc0 ∈ (decode_data feed ann_out unit_size interrupt
        abs_start sample_count st).calls)
    (hfail : feed fc0.start fc0.stop = false) :
    ((decode_data feed ann_out unit_size interrupt
        abs_start sample_count st).state.error_message = decoderReportedError
      ∧ decoderReportedError ≠ "")
    ∧ (decode_data feed ann_out unit_size interrupt
        abs_start sample_count st).calls.getLast? = some fc0
    ∧ (∀ fc ∈ (decode_data feed ann_out unit_size interrupt
        abs_start sample_count st).calls.dropLast, feed fc.start fc.stop = true)
    ∧ (decode_data feed ann_out unit_size interrupt
        abs_start sample_count st).state.samples_decoded
        = ((((decode_data feed ann_out unit_size interrupt
              abs_start sample_count st).calls.dropLast.map
                (fun fc => fc.stop)).getLast?).getD st.samples_decoded)
    ∧ (∃ t, (decode_data feed ann_out unit_size interrupt
        abs_start sample_count st).state.anns = st.anns ++ t) := by
  rcases go_error_dichotomy feed ann_out (chunk_sample_count unit_size)
      sample_count interrupt sample_count abs_start st with
    ⟨he, hall⟩ | ⟨he, L, lastc, hc2, hl, hL⟩
  · exact absurd (hall fc0 hmem) (by simp [hfail])
  · have hfc0 : fc0 = lastc := by
      have hmem2 : fc0 ∈ L ++ [lastc] := hc2 ▸ hmem
      rcases List.mem_append.mp hmem2 with h | h
      · exact absurd (hL fc0 h) (by simp [hfail])
      · simpa using h
    subst hfc0
    have hdrop : (decode_data feed ann_out unit_size interrupt
        abs_start sample_count st).calls.dropLast = L := by
      rw [show (decode_data feed ann_out unit_size interrupt
        abs_start sample_count st).calls = L ++ [fc0] from hc2]
      simp
    refine ⟨⟨he, by decide⟩, ?_, ?_, ?_, ?_⟩
    · rw [show (decode_data feed ann_out unit_size interrupt
        abs_start sample_count st).calls = L ++ [fc0] from hc2]
      simp
    · rw [hdrop]; exact hL
    · rw [hdrop]
      have h1 := go_sd_eq_updates feed ann_out (chunk_sample_count unit_size)
        sample_count interrupt sample_count abs_start st
      have h2 := go_updates_eq_ok_calls feed ann_out (chunk_sample_count unit_size)
        sample_count interrupt sample_count abs_start st
      rw [h2] at h1
      rw [show (decode_data_go feed ann_out (chunk_sample_count unit_size)
          sample_count interrupt sample_count abs_start st).calls
        = L ++ [fc0] from hc2] at h1
      rw [List.filter_append, List.filter_eq_self.mpr hL] at h1
      simpa [List.filter_cons, hfail] using h1
    · exact go_anns_retained feed ann_out (chunk_sample_count unit_size)
        sample_count interrupt sample_count abs_start st

/-- Witness for C2: with 10-sample chunks over 25 samples and an engine that
fails from sample 10 on, the second feed call `[10, 20)` fails; the error is
recorded, the failing call is the last, and `samples_decoded` stops at 10. -/
theorem decode_data_error_stops_witness :
    ((⟨10, 20⟩ : FeedCall) ∈
        (decode_data feedUpTo10 annOne 1048576 false 0 25 ⟨0, "", []⟩).calls
      ∧ feedUpTo10 10 20 = false)
    ∧ ((decode_data feedUpTo10 annOne 1048576 false 0 25
          ⟨0, "", []⟩).state.error_message = decoderReportedError
        ∧ (decode_data feedUpTo10 annOne 1048576 false 0 25
          ⟨0, "", []⟩).state.samples_decoded = 10) := by
  have h := decode_data_error_stops feedUpTo10 annOne 1048576 false 0 25
    ⟨0, "", []⟩ ⟨10, 20⟩ (by decide) (by decide)
  refine ⟨⟨by decide, by decide⟩, h.1.1, ?_⟩
  have h4 := h.2.2.2.1
  rw [show (decode_data feedUpTo10 annOne 1048576 false 0 25
      ⟨0, "", []⟩).calls.dropLast = [⟨0, 10⟩] from by decide] at h4
  simpa using h4

/-- One loop iteration lowers the remaining ceiling-divided chunk count by
exactly one. -/
theorem chunk_count_step (c i sc : Nat) (hc : 0 < c) (hi : i < sc) :
    (sc - i + c - 1) / c = (sc - min (i + c) sc + c - 1) / c + 1 := by
  rcases le_or_lt (i + c) sc with h | h
  · rw [min_eq_left h]
    have e1 : sc - i + c - 1 = (sc - (i + c) + c - 1) + c := by omega
    rw [e1, Nat.add_div_right _ hc]
  · have hm : min (i + c) sc = sc := min_eq_right (le_of_lt h)
    have hz : (sc - sc + c - 1) / c = 0 := Nat.div_eq_of_lt (by omega)
    have ho : (sc - i + c - 1) / c = 1 :=
      Nat.div_eq_of_lt_le (by omega) (by omega)
    rw [hm, hz, ho]

/-- With a never-failing engine and no interrupt, the feed calls of a
`decode_data` run starting at `i` are exactly the
`⌈(sample_count - i) / c⌉` consecutive chunks of `c` samples (the last one
clipped to `sample_count`). -/
theorem go_calls_all_ok (feed : Nat → Nat → Bool)
    (ann_out : Nat → Nat → List Nat) (c sc : Nat) (hc : 0 < c)
    (hfeed : ∀ i e, feed i e = true) :
    ∀ fuel i st, sc ≤ i + fuel →
      (decode_data_go feed ann_out c sc false fuel i st).calls
        = (List.range ((sc - i + c - 1) / c)).map
            (fun k => ⟨i + k * c, min (i + k * c + c) sc⟩) := by
  intro fuel
  induction fuel with
  | zero =>
    intro i st h
    have h0 : sc - i = 0 := by omega
    rw [decode_data_go, h0, Nat.div_eq_of_lt (by omega : 0 + c - 1 < c)]
    simp
  | succ fuel ih =>
    intro i st h
    by_cases hi : i < sc
    · have hice : i + 1 ≤ min (i + c) sc := le_min (by omega) hi
      rw [decode_data_go, if_pos ⟨rfl, hi⟩]
      simp only [hfeed i (min (i + c) sc), if_pos]
      rw [ih (min (i + c) sc) _ (by omega)]
      rw [chunk_count_step c i sc hc hi, List.range_succ_eq_map]
      simp only [List.map_cons, List.map_map]
      rcases le_or_lt (i + c) sc with hcase | hcase
      · rw [min_eq_left hcase]
        congr 1
        · simpa using hcase
        · refine List.map_congr_left ?_
          intro k _
          simp only [Function.comp_apply, Nat.succ_eq_add_one]
          congr 1
          · ring
          · congr 1; ring
      · have hm : min (i + c) sc = sc := min_eq_right (le_of_lt hcase)
        rw [hm]
        have hz : (sc - sc + c - 1) / c = 0 := Nat.div_eq_of_lt (by omega)
        rw [hz]
        simp [hm]
    · rw [decode_data_go, if_neg (by simp [hi])]
      have h0 : sc - i = 0 := by omega
      rw [h0, Nat.div_eq_of_lt (by omega : 0 + c - 1 < c)]
      simp

/-- With a never-failing engine and no interrupt, a `decode_data` run
reaches `sample_count` (when it had anything to do) and leaves the error
message untouched. -/
theorem go_final_all_ok (feed : Nat → Nat → Bool)
    (ann_out : Nat → Nat → List Nat) (c sc : Nat) (hc : 0 < c)
    (hfeed : ∀ i e, feed i e = true) :
    ∀ fuel i st, sc ≤ i + fuel →
      ((decode_data_go feed ann_out c sc false fuel i st).state.samples_decoded
          = if i < sc then sc else st.samples_decoded)
      ∧ (decode_data_go feed ann_out c sc false fuel i st).state.error_message
          = st.error_message := by
  intro fuel
  induction fuel with
  | zero =>
    intro i st h
    have hi : ¬ i < sc := by omega
    rw [decode_data_go]
    simp [hi]
  | succ fuel ih =>
    intro i st h
    by_cases hi : i < sc
    · have hice : i + 1 ≤ min (i + c) sc := le_min (by omega) hi
      rw [decode_data_go, if_pos ⟨rfl, hi⟩]
      simp only [hfeed i (min (i + c) sc), if_pos]
      obtain ⟨hsd, herr⟩ := ih (min (i + c) sc)
        { st with anns := st.anns ++ ann_out i (min (i + c) sc),
                  samples_decoded := min (i + c) sc } (by omega)
      refine ⟨?_, by simpa using herr⟩
      rw [hsd]
      have hle : min (i + c) sc ≤ sc := min_le_right _ _
      by_cases hlt : min (i + c) sc < sc
      · simp [hlt, hi]
      · simp only [if_neg hlt, if_pos hi]
        omega
    · rw [decode_data_go, if_neg (by simp [hi])]
      simp [hi]

/-- C5: `decode_data` feeds fixed-size chunks of
`DecodeChunkLength / unit_size` samples from the start sample to the given
`sample_count`: with no errors and no interrupt a run over `N` samples from
sample 0 makes exactly `⌈N / C⌉` feed calls (the `k`-th covering
`[kC, min((k+1)C, N))`), ends with `samples_decoded = N` and an empty error
message. -/
theorem decode_data_chunked (feed : Nat → Nat → Bool)
    (ann_out : Nat → Nat → List Nat) (unit_size : Nat) (N : Nat)
    (st : DecodeState) (hu : 0 < chunk_sample_count unit_size)
    (hfeed : ∀ i e, feed i e = true)
    (herr : st.error_message = "") (hsd : st.samples_decoded = 0) :
    (decode_data feed ann_out unit_size false 0 N st).calls
      = (List.range ((N + chunk_sample_count unit_size - 1)
            / chunk_sample_count unit_size)).map
          (fun k => ⟨k * chunk_sample_count unit_size,
            min (k * chunk_sample_count unit_size
              + chunk_sample_count unit_size) N⟩)
    ∧ (decode_data feed ann_out unit_size false 0 N st).calls.length
        = (N + chunk_sample_count unit_size - 1) / chunk_sample_count unit_size
    ∧ (decode_data feed ann_out unit_size false 0 N st).state.samples_decoded = N
    ∧ (decode_data feed ann_out unit_size false 0 N st).state.error_message
        = "" := by
  simp only [decode_data]
  have hcalls := go_calls_all_ok feed ann_out (chunk_sample_count unit_size) N
    hu hfeed N 0 st (by omega)
  have hfin := go_final_all_ok feed ann_out (chunk_sample_count unit_size) N
    hu hfeed N 0 st (by omega)
  refine ⟨?_, ?_, ?_, by rw [hfin.2, herr]⟩
  · rw [hcalls]
    simp
  · rw [hcalls]
    simp
  · rw [hfin.1]
    by_cases hN : 0 < N
    · simp [hN]
    · simp only [if_neg hN, hsd]
      omega

/-- Witness for C5: 35 samples in 10-sample chunks
(`unit_size = 1048576` bytes, so `C = 10485760 / 1048576 = 10`) take exactly
`⌈35 / 10⌉ = 4` feed calls and end fully decoded with no error. -/
theorem decode_data_chunked_witness :
    (0 < chunk_sample_count 1048576
      ∧ (∀ i e, feedOk i e = true)
      ∧ (⟨0, "", []⟩ : DecodeState).error_message = ""
      ∧ (⟨0, "", []⟩ : DecodeState).samples_decoded = 0)
    ∧ ((decode_data feedOk annOne 1048576 false 0 35 ⟨0, "", []⟩).calls.length
          = 4
      ∧ (decode_data feedOk annOne 1048576 false 0 35
          ⟨0, "", []⟩).state.samples_decoded = 35
      ∧ (decode_data feedOk annOne 1048576 false 0 35
          ⟨0, "", []⟩).state.error_message = "") := by
  have h := decode_data_chunked feedOk annOne 1048576 35 ⟨0, "", []⟩
    (by decide) (fun i e => rfl) rfl rfl
  refine ⟨⟨by decide, fun i e => rfl, rfl, rfl⟩, ?_, h.2.2.1, h.2.2.2⟩
  rw [h.2.1]
  decide

/-- C6: the annotation callback classifies an event by first looking up
(decoder, class id) in the class-to-row map, falling back on a miss to the
row keyed by the decoder alone; if the resolved row is absent from the row
index the single event is dropped (the callback signals the inconsistency
and returns with the state untouched, so subsequent events are processed
normally), otherwise the event is appended to exactly the resolved row's
store. -/
theorem ann_callback_classifies (s : StackState) (decc : Nat) (a : Ann)
    (key : Row)
    (hkey : key = (match alookup s.class_rows_ (decc, a.fmt) with
                   | some r => r
                   | none => Row.mk decc none)) :
    (alookup s.rows_ key = none →
        (DecoderStack.ann_callback decc a s).state = s
        ∧ (DecoderStack.ann_callback decc a s).dropped = true
        ∧ (DecoderStack.ann_callback decc a s).notified = false)
    ∧ (∀ rd, alookup s.rows_ key = some rd →
        (DecoderStack.ann_callback decc a s).dropped = false
        ∧ alookup (DecoderStack.ann_callback decc a s).state.rows_ key
            = some (RowData.push_ann rd a)
        ∧ (∀ k2, k2 ≠ key →
            alookup (DecoderStack.ann_callback decc a s).state.rows_ k2
              = alookup s.rows_ k2)
        ∧ (DecoderStack.ann_callback decc a s).state.annotation_count_
            = s.annotation_count_ + 1) := by
  subst hkey
  unfold DecoderStack.ann_callback
  constructor
  · intro hnone
    simp [hnone]
  · intro rd hrd
    simp only [hrd, DecoderStack.inc_ann_count]
    refine ⟨?_, ?_, ?_, ?_⟩
    · split <;> rfl
    · split <;> simp [alookup_aupdate_self]
    · intro k2 hk2
      by_cases hcnt : s.annotation_count_ % DecodeNotifyPeriod = 0
      · simp only [if_pos hcnt]
        exact alookup_aupdate_ne _ _ k2 _ hk2
      · simp only [if_neg hcnt]
        exact alookup_aupdate_ne _ _ k2 _ hk2
    · split <;> rfl

/-- Witness for C6 at explicit inputs: with empty maps an event resolves to
the fallback row, which is absent, so it is dropped with the state
untouched; with a one-row index whose class 0 maps to row (7, schema 3),
the event is appended to exactly that row. -/
theorem ann_callback_classifies_witness :
    ((⟨7, none⟩ : Row)
        = (match alookup stateA.class_rows_ (7, (⟨0, 5, 0⟩ : Ann).fmt) with
           | some r => r
           | none => Row.mk 7 none)
      ∧ alookup stateA.rows_ ⟨7, none⟩ = none
      ∧ (DecoderStack.ann_callback 7 ⟨0, 5, 0⟩ stateA).state = stateA
      ∧ (DecoderStack.ann_callback 7 ⟨0, 5, 0⟩ stateA).dropped = true)
    ∧ ((⟨7, some 3⟩ : Row)
        = (match alookup stateC.class_rows_ (7, (⟨0, 5, 0⟩ : Ann).fmt) with
           | some r => r
           | none => Row.mk 7 none)
      ∧ alookup stateC.rows_ ⟨7, some 3⟩ = some RowData.empty
      ∧ (DecoderStack.ann_callback 7 ⟨0, 5, 0⟩ stateC).dropped = false
      ∧ alookup (DecoderStack.ann_callback 7 ⟨0, 5, 0⟩ stateC).state.rows_
          ⟨7, some 3⟩ = some (RowData.push_ann RowData.empty ⟨0, 5, 0⟩)) := by
  have h1 := (ann_callback_classifies stateA 7 ⟨0, 5, 0⟩ ⟨7, none⟩
    (by decide)).1 (by decide)
  have h2 := (ann_callback_classifies stateC 7 ⟨0, 5, 0⟩ ⟨7, some 3⟩
    (by decide)).2 RowData.empty (by decide)
  exact ⟨⟨by decide, by decide, h1.1, h1.2.1⟩,
         ⟨by decide, by decide, h2.1, h2.2.1⟩⟩

/-- C8: a "new annotations" notification is emitted by the callback exactly
when the event was stored and the global annotation counter (before its
post-increment) is a multiple of `DecodeNotifyPeriod = 1024` — i.e. once
every 1024 stored events; and after the feed/wait loop of `decode_proc`
exits, by error, interrupt or completion, one final `new_annotations`
notification precedes the engine-session destruction. -/
theorem notify_period_and_final :
    DecodeNotifyPeriod = 1024
    ∧ (∀ (s : StackState) (decc : Nat) (a : Ann),
        (DecoderStack.ann_callback decc a s).notified = true
          ↔ ((DecoderStack.ann_callback decc a s).dropped = false
              ∧ s.annotation_count_ % DecodeNotifyPeriod = 0))
    ∧ (∀ (feed : Nat → Nat → Bool) (ann_out : Nat → Nat → List Nat)
        (unit_size : Nat) (envs : List WaitObs) (sc0 : Nat) (st : DecodeState),
        ∃ evs, (decode_proc feed ann_out unit_size envs sc0 st).2
          = evs ++ [PEvent.new_anns, PEvent.session_destroy]) := by
  refine ⟨rfl, ?_, ?_⟩
  · intro s decc a
    unfold DecoderStack.ann_callback
    simp only [DecoderStack.inc_ann_count]
    split
    · simp
    · split
      · rename_i hcnt
        simpa using hcnt
      · rename_i hcnt
        simpa using hcnt
  · intro feed ann_out unit_size envs sc0 st
    exact ⟨(decode_loop feed ann_out unit_size envs 0 sc0 st).2, rfl⟩

/-- When some decoder lacks its required channels, `begin_decode` reduces to
the cleared state carrying the missing-channels message. -/
theorem begin_decode_err_eq (s : StackState) (data : Option (List Segment))
    (hex : ∃ d ∈ s.stack_, d.have_required_channels = false) :
    DecoderStack.begin_decode data s
      = { DecoderStack.clear { s with thread_running := false } with
            error_message_ := requiredChannelsMsg } := by
  unfold DecoderStack.begin_decode DecoderStack.clear
  simp [hex]

/-- When all decoders have their channels but the located logic data has no
segments, `begin_decode` reduces to the row-building fold over the cleared
state. -/
theorem begin_decode_empty_eq (s : StackState)
    (hex : ¬ ∃ d ∈ s.stack_, d.have_required_channels = false) :
    DecoderStack.begin_decode (some []) s
      = s.stack_.foldl addRowsFor
          (DecoderStack.clear { s with thread_running := false }) := by
  unfold DecoderStack.begin_decode DecoderStack.clear
  simp [hex]

/-- C3: if any decoder in the stack lacks its required channels,
`begin_decode` sets the (non-empty) missing-channels message, leaves
`samples_decoded()` at 0, builds no row state, touches no segment state and
spawns no decode thread. -/
theorem begin_decode_missing_channels (data : Option (List Segment))
    (s : StackState) (h : ∃ d ∈ s.stack_, d.have_required_channels = false) :
    ((DecoderStack.begin_decode data s).error_message_ = requiredChannelsMsg
      ∧ requiredChannelsMsg ≠ "")
    ∧ (DecoderStack.begin_decode data s).samples_decoded_ = 0
    ∧ (DecoderStack.begin_decode data s).rows_ = []
    ∧ (DecoderStack.begin_decode data s).class_rows_ = []
    ∧ (DecoderStack.begin_decode data s).segment_ = s.segment_
    ∧ (DecoderStack.begin_decode data s).thread_running = false := by
  rw [begin_decode_err_eq s data h]
  exact ⟨⟨rfl, by decide⟩, rfl, rfl, rfl, rfl, rfl⟩

/-- Witness for C3: `stateB`'s second decoder has unbound channels, so a
`begin_decode` on it aborts with the message, zero progress, no rows and no
thread. -/
theorem begin_decode_missing_channels_witness :
    (∃ d ∈ stateB.stack_, d.have_required_channels = false)
    ∧ ((DecoderStack.begin_decode (some [⟨1, 5, 0, 0⟩]) stateB).error_message_
          = requiredChannelsMsg
      ∧ (DecoderStack.begin_decode (some [⟨1, 5, 0, 0⟩])
          stateB).samples_decoded_ = 0
      ∧ (DecoderStack.begin_decode (some [⟨1, 5, 0, 0⟩]) stateB).rows_ = []
      ∧ (DecoderStack.begin_decode (some [⟨1, 5, 0, 0⟩])
          stateB).thread_running = false) := by
  have h := begin_decode_missing_channels (some [⟨1, 5, 0, 0⟩]) stateB
    ⟨⟨8, false, [], true⟩, by decide, rfl⟩
  exact ⟨⟨⟨8, false, [], true⟩, by decide, rfl⟩,
         h.1.1, h.2.1, h.2.2.1, h.2.2.2.2.2⟩

theorem foldl_preserve {α σ : Type} (P : σ → Prop) (f : σ → α → σ)
    (hf : ∀ s a, P s → P (f s a)) :
    ∀ (l : List α) (s : σ), P s → P (l.foldl f s) := by
  intro l
  induction l with
  | nil => intro s h; exact h
  | cons x xs ih =>
    intro s h
    exact ih (f s x) (hf s x h)

/-- `addRowsFor` only inserts empty row stores and leaves the progress
counters and the thread flag alone. -/
theorem addRowsFor_inv (s : StackState) (d : Decoder)
    (h : (∀ p ∈ s.rows_, p.2 = RowData.empty) ∧ s.samples_decoded_ = 0
      ∧ s.annotation_count_ = 0 ∧ s.thread_running = false) :
    (∀ p ∈ (addRowsFor s d).rows_, p.2 = RowData.empty)
    ∧ (addRowsFor s d).samples_decoded_ = 0
    ∧ (addRowsFor s d).annotation_count_ = 0
    ∧ (addRowsFor s d).thread_running = false := by
  unfold addRowsFor
  apply foldl_preserve (fun t : StackState =>
    (∀ p ∈ t.rows_, p.2 = RowData.empty) ∧ t.samples_decoded_ = 0
      ∧ t.annotation_count_ = 0 ∧ t.thread_running = false)
  · intro t ar ht
    apply foldl_preserve (fun t : StackState =>
      (∀ p ∈ t.rows_, p.2 = RowData.empty) ∧ t.samples_decoded_ = 0
        ∧ t.annotation_count_ = 0 ∧ t.thread_running = false)
    · intro t2 cls ht2
      exact ⟨ht2.1, ht2.2⟩
    · refine ⟨?_, ht.2⟩
      intro p hp
      rcases mem_aupdate hp with hp | hp
      · simp [hp]
      · exact ht.1 p hp
  · split
    · refine ⟨?_, h.2⟩
      intro p hp
      rcases mem_aupdate hp with hp | hp
      · simp [hp]
      · exact h.1 p hp
    · exact h

/-- C7: `begin_decode` (after joining any previous decode thread) resets the
whole pipeline state before setup — `clear` zeroes the sample count, the
annotation counter, the frame flag, the decode watermark, the error message,
the row index and the class-to-row map — so a run over an empty segment
deque ends with no thread, `samples_decoded() = 0`, a zero annotation
counter and only empty row stores. -/
theorem begin_decode_resets (s : StackState) :
    ((DecoderStack.clear s).sample_count_ = 0
      ∧ (DecoderStack.clear s).annotation_count_ = 0
      ∧ (DecoderStack.clear s).frame_complete_ = false
      ∧ (DecoderStack.clear s).samples_decoded_ = 0
      ∧ (DecoderStack.clear s).error_message_ = ""
      ∧ (DecoderStack.clear s).rows_ = []
      ∧ (DecoderStack.clear s).class_rows_ = [])
    ∧ ((DecoderStack.begin_decode (some []) s).thread_running = false
      ∧ (DecoderStack.begin_decode (some []) s).samples_decoded_ = 0
      ∧ (DecoderStack.begin_decode (some []) s).annotation_count_ = 0
      ∧ ∀ p ∈ (DecoderStack.begin_decode (some []) s).rows_,
          p.2 = RowData.empty) := by
  refine ⟨⟨rfl, rfl, rfl, rfl, rfl, rfl, rfl⟩, ?_⟩
  by_cases hex : ∃ d ∈ s.stack_, d.have_required_channels = false
  · rw [begin_decode_err_eq s (some []) hex]
    refine ⟨rfl, rfl, rfl, ?_⟩
    intro p hp
    simp [DecoderStack.clear] at hp
  · rw [begin_decode_empty_eq s hex]
    have hinv := foldl_preserve (fun t : StackState =>
        (∀ p ∈ t.rows_, p.2 = RowData.empty) ∧ t.samples_decoded_ = 0
          ∧ t.annotation_count_ = 0 ∧ t.thread_running = false)
      addRowsFor (fun t d ht => addRowsFor_inv t d ht) s.stack_
      (DecoderStack.clear { s with thread_running := false })
      ⟨by simp [DecoderStack.clear], rfl, rfl, rfl⟩
    exact ⟨hinv.2.2.2, hinv.2.1, hinv.2.2.1, hinv.1⟩

/-- Witness for C7: the reset and the empty-segment second run evaluated on
a concrete stack state with stale progress and rows. -/
theorem begin_decode_resets_witness :
    ((DecoderStack.clear stateB).sample_count_ = 0
      ∧ (DecoderStack.clear stateB).annotation_count_ = 0
      ∧ (DecoderStack.clear stateB).frame_complete_ = false
      ∧ (DecoderStack.clear stateB).samples_decoded_ = 0
      ∧ (DecoderStack.clear stateB).error_message_ = ""
      ∧ (DecoderStack.clear stateB).rows_ = []
      ∧ (DecoderStack.clear stateB).class_rows_ = [])
    ∧ ((DecoderStack.begin_decode (some []) stateB).thread_running = false
      ∧ (DecoderStack.begin_decode (some []) stateB).samples_decoded_ = 0
      ∧ (DecoderStack.begin_decode (some []) stateB).annotation_count_ = 0
      ∧ ∀ p ∈ (DecoderStack.begin_decode (some []) stateB).rows_,
          p.2 = RowData.empty) :=
  begin_decode_resets stateB

end PulseView
